import Mathlib

/-!
Verification of the go-grep repository (package pkg, files grep.go and
grep_buffer.go, current version: the one declaring GrepOption with
LinesAfterMatch and MAX_OPEN_FILE_DESCRIPTORS).

The Go code is shallowly embedded: input streams are modelled as the list
of lines the scanner produces, the filesystem as an association list from
paths to entries, Go int as Int, and byte strings as Lean strings whose
operations are defined structurally over their character lists (the test
data is ASCII, where Go strings.ToLower agrees with per-character ASCII
lower-casing).
-/

namespace GoGrep

/-! ## String primitives used by the Go code -/

/-- Whether the first character list is a leading segment of the second
(the list form of Go strings.HasPrefix). -/
def listIsPre : List Char → List Char → Bool
  | [], _ => true
  | _ :: _, [] => false
  | a :: l1, b :: l2 => a == b && listIsPre l1 l2

/-- Whether the needle occurs contiguously inside the haystack. -/
def listInfix (needle : List Char) (hay : List Char) : Bool :=
  match hay with
  | [] => listIsPre needle []
  | _ :: t => listIsPre needle hay || listInfix needle t

/-- Go strings.Contains(s, sub). -/
def goContains (s sub : String) : Bool := listInfix sub.data s.data

/-- Go strings.ToLower on ASCII data: each character is lower-cased. -/
def toLower (s : String) : String := String.mk (s.data.map Char.toLower)

/-- Go strings.TrimPrefix(s, pre): s without the leading pre, if present. -/
def goTrimLeading (s pre : String) : String :=
  if listIsPre pre.data s.data then String.mk (s.data.drop pre.data.length) else s

/-- Go strings.Index(s, sub): first index of sub in s, -1 if absent. -/
def firstIdx (needle : List Char) : List Char → Int
  | [] => if listIsPre needle [] then 0 else -1
  | c :: t =>
    if listIsPre needle (c :: t) then 0
    else
      let r := firstIdx needle t
      if r == -1 then -1 else r + 1

/-! ## grep_buffer.go -/

/-- The context buffer of grep_buffer.go: a slice of lines and the
configured capacity (Go int). -/
structure grepBuffer where
  buff : List String
  size : Int
deriving Repr, DecidableEq

/-- NewGrepBuffer of grep_buffer.go: the zero-value buffer for size 0,
otherwise an empty slice with the given size. -/
def NewGrepBuffer (size : Int) : grepBuffer :=
  if size == 0 then { buff := [], size := 0 } else { buff := [], size := size }

/-- Push of grep_buffer.go: no-op when size is 0; when the buffer is full
(length equal to size) the oldest element is dropped before appending. -/
def grepBuffer.Push (b : grepBuffer) (data : String) : grepBuffer :=
  if b.size == 0 then b
  else
    let buff := if (b.buff.length : Int) == b.size then b.buff.tail else b.buff
    { b with buff := buff ++ [data] }

/-- Dump of grep_buffer.go: returns the stored lines. -/
def grepBuffer.Dump (b : grepBuffer) : List String := b.buff

/-- A sequence of Push operations, oldest first. -/
def pushAll (b : grepBuffer) (lines : List String) : grepBuffer :=
  lines.foldl grepBuffer.Push b

/-! ## grep.go data model -/

/-- MAX_OPEN_FILE_DESCRIPTORS of grep.go. -/
def MAX_OPEN_FILE_DESCRIPTORS : Int := 1024

/-- GrepOption of grep.go. Stdin is modelled as the list of lines the
scanner would produce from the reader. -/
structure GrepOption where
  OrigPath : String := ""
  Path : String := ""
  Stdin : List String := []
  Keyword : String := ""
  IgnoreCase : Bool := false
  LinesBeforeMatch : Int := 0
  LinesAfterMatch : Int := 0
  SearchDir : Bool := false
  LineCount : Bool := false
deriving Repr, DecidableEq

/-- The sentinel errors a grep run can surface: fs.ErrNotExist,
ErrIsDirectory and fs.ErrPermission, each wrapped with the path the code
formats into the message. -/
inductive GrepError where
  | ErrNotExist (path : String)
  | ErrIsDirectory (path : String)
  | ErrPermission (path : String)
deriving Repr, DecidableEq

/-- GrepResult of grep.go. -/
structure GrepResult where
  Path : String := ""
  MatchedLines : List String := []
  LineCount : Nat := 0
  Error : Option GrepError := none
deriving Repr, DecidableEq

/-- A filesystem entry: a directory, or a regular file with its permission
bits (fileInfo.Mode().Perm()) and its content as a list of lines. -/
inductive FSEntry where
  | dir : FSEntry
  | file (perm : Nat) (content : List String) : FSEntry
deriving Repr, DecidableEq

/-- The fs.FS seen by the code: an association list from paths to entries,
kept in the lexical order fstest.MapFS walks in. -/
def FSys : Type := List (String × FSEntry)

/-- Path lookup (fs.Stat resolution) in the modelled filesystem. -/
def FSys.lookup (fSys : FSys) (path : String) : Option FSEntry :=
  match fSys with
  | [] => none
  | (p, e) :: rest => if p == path then some e else FSys.lookup rest path

/-! ## searchString of grep.go

The loop body is split into its three sequential blocks: the pending
after-context emission, the match handling, and the buffer push. -/

/-- The running state of the searchString loop: the before-context buffer,
the afterMatchCount counter and the result slice. -/
structure SearchState where
  buffer : grepBuffer
  afterMatchCount : Int
  result : List String
deriving Repr, DecidableEq

/-- First block of the loop body: if a previous match left
afterMatchCount positive, the raw line is appended to the result and the
counter decremented. -/
def afterPhase (st : SearchState) (line : String) : SearchState :=
  if st.afterMatchCount > 0 then
    { st with result := st.result ++ [line], afterMatchCount := st.afterMatchCount - 1 }
  else st

/-- Second block: if the (possibly lower-cased) line contains the keyword,
the before-context buffer is dumped when LinesBeforeMatch is positive, the
raw matched line is appended, and LinesAfterMatch is added onto
afterMatchCount when positive. -/
def matchPhase (option : GrepOption) (kw line : String) (st : SearchState) : SearchState :=
  if goContains (if option.IgnoreCase then toLower line else line) kw then
    { st with
      result :=
        (if option.LinesBeforeMatch > 0 then st.result ++ st.buffer.Dump else st.result) ++ [line],
      afterMatchCount :=
        if option.LinesAfterMatch > 0 then st.afterMatchCount + option.LinesAfterMatch
        else st.afterMatchCount }
  else st

/-- Third block: the raw line is pushed into the buffer when
LinesBeforeMatch is positive. -/
def pushPhase (option : GrepOption) (st : SearchState) (line : String) : SearchState :=
  if option.LinesBeforeMatch > 0 then { st with buffer := st.buffer.Push line } else st

/-- One iteration of the scanner loop of searchString. -/
def searchStep (option : GrepOption) (kw : String) (st : SearchState) (line : String) :
    SearchState :=
  pushPhase option (matchPhase option kw line (afterPhase st line)) line

/-- The keyword after the optional IgnoreCase normalisation at the top of
searchString. -/
def normKeyword (option : GrepOption) : String :=
  if option.IgnoreCase then toLower option.Keyword else option.Keyword

/-- The initial loop state of searchString. -/
def initState (option : GrepOption) : SearchState :=
  { buffer := NewGrepBuffer option.LinesBeforeMatch, afterMatchCount := 0, result := [] }

/-- searchString of grep.go on the scanned lines (the scanner-error path is
not modelled: the input is already the list of scanned lines). -/
def searchString (option : GrepOption) (lines : List String) : List String :=
  (lines.foldl (searchStep option (normKeyword option)) (initState option)).result

/-! ## isValid, getReader, Grep of grep.go -/

/-- isValid of grep.go: stat the path, report ErrNotExist for a missing
entry with the original path, ErrIsDirectory for a directory with the
original path, and fs.ErrPermission when perm AND 400 (the decimal literal
from the source) is zero, with the internal path. -/
def isValid (fSys : FSys) (option : GrepOption) : Option GrepError :=
  match FSys.lookup fSys option.Path with
  | none => some (GrepError.ErrNotExist option.OrigPath)
  | some FSEntry.dir => some (GrepError.ErrIsDirectory option.OrigPath)
  | some (FSEntry.file perm _) =>
    if perm &&& 400 == 0 then some (GrepError.ErrPermission option.Path) else none

/-- getReader of grep.go, instrumented: besides the reader (the file lines
or the Stdin lines) or the validation error, it records the list of paths
the code passes to fSys.Open, so that a claim can state that a target was
never opened. -/
def getReader (fSys : FSys) (option : GrepOption) :
    Except GrepError (List String) × List String :=
  if option.Path ≠ "" then
    match isValid fSys option with
    | some e => (Except.error e, [])
    | none =>
      match FSys.lookup fSys option.Path with
      | some (FSEntry.file _ content) => (Except.ok content, [option.Path])
      | some FSEntry.dir => (Except.error (GrepError.ErrIsDirectory option.Path), [option.Path])
      | none => (Except.error (GrepError.ErrNotExist option.Path), [option.Path])
  else (Except.ok option.Stdin, [])

/-- Grep of grep.go: validation and open via getReader, then searchString;
in count-mode the result carries the length of the emitted sequence,
otherwise the emitted lines. -/
def Grep (fSys : FSys) (option : GrepOption) : GrepResult :=
  match (getReader fSys option).1 with
  | Except.error e => { Error := some e }
  | Except.ok lines =>
    let result := searchString option lines
    if option.LineCount then { Path := option.Path, LineCount := result.length }
    else { Path := option.Path, MatchedLines := result }

/-- The paths a Grep call passes to fSys.Open. -/
def GrepOpens (fSys : FSys) (option : GrepOption) : List String :=
  (getReader fSys option).2

/-! ## GrepR of grep.go -/

/-- normalisePathFromRoot of grep.go: strip a leading "../" from the user
path, locate it inside the walked path, and splice the tail of the walked
path onto the user path. -/
def normalisePathFromRoot (rootPath dirPath : String) : String :=
  let dirPathClean := goTrimLeading dirPath "../"
  let idx := firstIdx dirPathClean.data rootPath.data
  dirPath ++ String.mk (rootPath.data.drop (idx + (dirPathClean.data.length : Int)).toNat)

/-- The child GrepOption a GrepR worker builds for a walked file. -/
def GrepRChildOption (parentOption : GrepOption) (path : String) : GrepOption :=
  { Path := path, OrigPath := parentOption.Path, Keyword := parentOption.Keyword,
    IgnoreCase := parentOption.IgnoreCase, LinesBeforeMatch := parentOption.LinesBeforeMatch,
    LinesAfterMatch := parentOption.LinesAfterMatch, LineCount := parentOption.LineCount }

/-- Whether a stored path is visited by fs.WalkDir from the given root. -/
def underRoot (root path : String) : Bool :=
  path == root || listIsPre (root ++ "/").data path.data

/-- The entries fs.WalkDir visits from the root, in stored (lexical)
order. -/
def walkEntries (fSys : FSys) (root : String) : List (String × FSEntry) :=
  fSys.filter (fun pe => underRoot root pe.1)

/-- The single GrepResult value the collation loop receives from the
channel of one worker: a directory worker closes its channel without sending,
so the receive yields the zero value; a file worker sends the error result
on failure, nothing (hence the zero value) on zero matches, and otherwise
the result with the path rewritten via normalisePathFromRoot. -/
def GrepREntryOutcome (fSys : FSys) (parentOption : GrepOption) (pe : String × FSEntry) :
    GrepResult :=
  match pe.2 with
  | FSEntry.dir => {}
  | FSEntry.file _ _ =>
    let result := Grep fSys (GrepRChildOption parentOption pe.1)
    if result.Error ≠ none then result
    else if result.MatchedLines.length == 0 && result.LineCount == 0 then {}
    else { result with Path := normalisePathFromRoot pe.1 parentOption.OrigPath }

/-- GrepR of grep.go: one worker per walked entry, then the collation loop,
which receives one value per channel and skips every value with no matched
lines and zero count. -/
def GrepR (fSys : FSys) (parentOption : GrepOption) : List GrepResult :=
  ((walkEntries fSys parentOption.Path).map (GrepREntryOutcome fSys parentOption)).filter
    (fun result => !(result.MatchedLines.length == 0 && result.LineCount == 0))

/-! ## The fd-limiter of GrepR as a transition system

A worker acquires a slot only after the condition-variable loop has seen
openFileLimit positive, decrementing it under the lock; after its file
work it increments the counter again. The holding component counts the
workers between their decrement and their increment, i.e. the workers
allowed to have their file open. -/

/-- A state of the admission limiter: the shared openFileLimit counter and
the number of workers currently holding a slot. -/
structure LimiterState where
  openFileLimit : Int
  holding : Nat
deriving Repr, DecidableEq

/-- The state before any worker has acquired a slot. -/
def limiterInit : LimiterState :=
  { openFileLimit := MAX_OPEN_FILE_DESCRIPTORS, holding := 0 }

/-- One scheduler step of the limiter protocol: a worker passes the guard
and takes a slot, or a slot-holding worker gives its slot back. -/
inductive LimiterStep : LimiterState → LimiterState → Prop where
  | acquire (s : LimiterState) (h : 0 < s.openFileLimit) :
      LimiterStep s { openFileLimit := s.openFileLimit - 1, holding := s.holding + 1 }
  | release (s : LimiterState) (h : 0 < s.holding) :
      LimiterStep s { openFileLimit := s.openFileLimit + 1, holding := s.holding - 1 }

/-- The states reachable from the initial limiter state. -/
inductive LimiterReachable : LimiterState → Prop where
  | init : LimiterReachable limiterInit
  | step {s t : LimiterState} (hs : LimiterReachable s) (hst : LimiterStep s t) :
      LimiterReachable t

/-! ## Concrete inputs used by the claim checks -/

/-- The tree used to exercise GrepR error handling: a root directory with
one unreadable file and one readable matching file. -/
def fsTree : FSys :=
  [("d", FSEntry.dir), ("d/a", FSEntry.file 0 ["x"]), ("d/b", FSEntry.file 493 ["x"])]

/-- The GrepR options for the fsTree run. -/
def optTree : GrepOption := { Path := "d", OrigPath := "d", Keyword := "x" }

/-- Count-mode options carrying a before-context setting. -/
def optCount : GrepOption :=
  { Keyword := "x", Stdin := ["a", "x"], LinesBeforeMatch := 1, LineCount := true }

/-- Options with after-context 2 used for the after-counter check. -/
def optAfter : GrepOption := { Keyword := "x", LinesAfterMatch := 2 }

/-- A single write-only file: permission bits 128 (octal 200), owner-read
revoked. -/
def fsWriteOnly : FSys := [("f.txt", FSEntry.file 128 ["x"])]

/-- The options naming the write-only file. -/
def optWriteOnly : GrepOption := { Path := "f.txt", OrigPath := "f.txt", Keyword := "x" }

/-- A filesystem holding a single directory entry. -/
def fsDir : FSys := [("d", FSEntry.dir)]

/-- Options naming that directory as the single target. -/
def optDir : GrepOption := { Path := "d", OrigPath := "d", Keyword := "x" }

/-- Options with negative context settings. -/
def optNeg : GrepOption := { Keyword := "x", LinesBeforeMatch := -2, LinesAfterMatch := -3 }

/-! ## Theorems -/

/-- Claim C1 evaluated on the code: in count-mode with before-context 1 on
the stream with lines a, x and keyword x, Grep reports LineCount 2, while
line-mode with zero context settings returns exactly one matched line, so
the count includes the context line. -/
theorem c1_code_eval :
    (Grep [] optCount).LineCount = 2 ∧
    (Grep [] { Keyword := "x", Stdin := ["a", "x"] }).MatchedLines.length = 1 := by
  decide

/-- Claim C2 as stated is false on the code: with configured after-context
2, a line matching while the counter holds 2 leaves the counter at 3 (the
count is added, not assigned), and after the two consecutive matches of
the input x, x, a, b, c, d three trailing context lines a, b, c are
emitted, exceeding the configured 2. -/
theorem c2_counterexample :
    (searchStep optAfter (normKeyword optAfter)
        { buffer := NewGrepBuffer 0, afterMatchCount := 2, result := [] } "x").afterMatchCount
      = 3 ∧
    searchString optAfter ["x", "x", "a", "b", "c", "d"] =
      searchString optAfter ["x", "x"] ++ ["a", "b", "c"] ∧
    optAfter.LinesAfterMatch = 2 := by
  decide

/-- Claim C2 as amended: in searchString, when a line matches the keyword
and the configured after-context count is positive, the configured count
is added onto the pending counter left after the decrement performed
earlier in the same iteration (accumulating, not overwriting). -/
theorem c2_after_counter (option : GrepOption) (kw line : String) (st : SearchState)
    (hmatch : goContains (if option.IgnoreCase then toLower line else line) kw = true)
    (hafter : option.LinesAfterMatch > 0) :
    (searchStep option kw st line).afterMatchCount =
      (if st.afterMatchCount > 0 then st.afterMatchCount - 1 else st.afterMatchCount) +
        option.LinesAfterMatch := by
  by_cases hb : option.LinesBeforeMatch > 0 <;>
    by_cases ha0 : st.afterMatchCount > 0 <;>
      simp [searchStep, pushPhase, matchPhase, afterPhase, hmatch, hafter, hb, ha0]

/-- Concrete instance of the amended claim C2: counter 5, after-context 2,
matching line: the counter becomes (5 - 1) + 2 = 6. -/
theorem c2_after_counter_witness :
    goContains (if optAfter.IgnoreCase then toLower "x" else "x") "x" = true ∧
    optAfter.LinesAfterMatch > 0 ∧
    (searchStep optAfter "x"
        { buffer := NewGrepBuffer 0, afterMatchCount := 5, result := [] } "x").afterMatchCount
      = 6 := by
  refine ⟨by decide, by decide, ?_⟩
  rw [c2_after_counter optAfter "x" "x"
    { buffer := NewGrepBuffer 0, afterMatchCount := 5, result := [] } (by decide) (by decide)]
  decide

/-- Claim C3 evaluated on the code: over the tree fsTree, whose file d/a is
unreadable and whose file d/b matches, the per-file Grep of d/a does
return a permission error, yet GrepR returns only the outcome of d/b and
no returned outcome carries an error: the collation loop drops the error
outcome because it has no matched lines and zero count. -/
theorem c3_code_eval :
    GrepR fsTree optTree = [{ Path := "d/b", MatchedLines := ["x"] }] ∧
    (Grep fsTree (GrepRChildOption optTree "d/a")).Error =
      some (GrepError.ErrPermission "d/a") ∧
    (∀ result ∈ GrepR fsTree optTree, result.Error = none) := by
  decide

/-- Claim C4 evaluated on the code: the file f.txt of fsWriteOnly has
permission bits 128 (octal 200), so its owner-read bit (octal 400, i.e.
256) is not set, yet isValid accepts it - the source masks with the
decimal literal 400 - and Grep opens and searches the file with no
PermissionDenied error. -/
theorem c4_code_eval :
    isValid fsWriteOnly optWriteOnly = none ∧
    (Grep fsWriteOnly optWriteOnly).Error = none ∧
    GrepOpens fsWriteOnly optWriteOnly = ["f.txt"] ∧
    128 &&& 256 = 0 := by
  decide

/-- The buffer allocated by NewGrepBuffer is empty for every size. -/
theorem NewGrepBuffer_buff (size : Int) : (NewGrepBuffer size).buff = [] := by
  unfold NewGrepBuffer
  split <;> rfl

/-- The buffer allocated by NewGrepBuffer records the requested size. -/
theorem NewGrepBuffer_size (size : Int) : (NewGrepBuffer size).size = size := by
  unfold NewGrepBuffer
  split <;> simp_all

/-- Characterisation of a run of Push operations on a buffer of positive
capacity k: starting from stored lines l with at most k of them, the run
ends with the last k lines of l followed by the pushed lines, in order. -/
theorem pushAll_eq (k : Int) (hk : 0 < k) :
    ∀ (lines l : List String), l.length ≤ k.toNat →
      pushAll { buff := l, size := k } lines =
        { buff := (l ++ lines).drop ((l ++ lines).length - k.toNat), size := k } := by
  intro lines
  induction lines with
  | nil =>
    intro l hl
    simp [pushAll, Nat.sub_eq_zero_of_le hl]
  | cons x rest ih =>
    intro l hl
    have hk0 : ¬(k == 0) = true := by simp; omega
    have hstep : pushAll { buff := l, size := k } (x :: rest) =
        pushAll (grepBuffer.Push { buff := l, size := k } x) rest := rfl
    rw [hstep]
    by_cases hfull : (l.length : Int) = k
    · have hlen : l.length = k.toNat := by omega
      have hpos : 0 < l.length := by omega
      match l, hpos with
      | a :: t, _ =>
        have hpush : grepBuffer.Push { buff := a :: t, size := k } x =
            { buff := t ++ [x], size := k } := by
          unfold grepBuffer.Push
          rw [if_neg (by simpa using hk0), if_pos (by simpa using hfull)]
          rfl
        rw [hpush]
        rw [ih (t ++ [x]) (by simp at hlen ⊢; omega)]
        have hL : (t ++ [x]) ++ rest = t ++ x :: rest := by simp
        have hlenT : t.length + 1 = k.toNat := by simpa using hlen
        have e1 : ((t ++ [x]) ++ rest).length - k.toNat = rest.length := by
          simp [List.length_append]; omega
        have e2 : ((a :: t) ++ x :: rest).length - k.toNat = rest.length + 1 := by
          simp [List.length_append]; omega
        rw [e1, e2, hL]
        have e3 : ((a :: t) ++ x :: rest) = a :: (t ++ x :: rest) := by simp
        rw [e3, List.drop_succ_cons]
    · have hlt : l.length < k.toNat := by
        have : l.length ≠ k.toNat := by omega
        omega
      have hpush : grepBuffer.Push { buff := l, size := k } x =
          { buff := l ++ [x], size := k } := by
        unfold grepBuffer.Push
        rw [if_neg (by simpa using hk0), if_neg (by simpa using hfull)]
      rw [hpush]
      rw [ih (l ++ [x]) (by simp; omega)]
      simp

/-- Claim C6: for every positive capacity k, a buffer never holds more
than k lines after any sequence of pushes, and after all pushes Dump
returns exactly the last min(m, k) pushed lines in insertion order
(formulated as the drop of all but the last k). -/
theorem c6_buffer_bound (k : Int) (hk : 0 < k) :
    (∀ lines : List String, (pushAll (NewGrepBuffer k) lines).buff.length ≤ k.toNat) ∧
    (∀ lines : List String,
      (pushAll (NewGrepBuffer k) lines).Dump = lines.drop (lines.length - k.toNat) ∧
      (pushAll (NewGrepBuffer k) lines).Dump.length = min lines.length k.toNat) := by
  have hnew : NewGrepBuffer k = { buff := [], size := k } := by
    unfold NewGrepBuffer
    rw [if_neg (by simp; omega)]
  have hrun : ∀ lines : List String,
      pushAll (NewGrepBuffer k) lines =
        { buff := lines.drop (lines.length - k.toNat), size := k } := by
    intro lines
    rw [hnew, pushAll_eq k hk lines [] (by simp)]
    simp
  constructor
  · intro lines
    rw [hrun]
    simp
    omega
  · intro lines
    rw [hrun]
    unfold grepBuffer.Dump
    refine ⟨rfl, ?_⟩
    simp
    omega

/-- Concrete instance of claim C6: capacity 2, pushes a, b, c; the buffer
retains the last two lines b, c. -/
theorem c6_buffer_bound_witness :
    (0 : Int) < 2 ∧ (pushAll (NewGrepBuffer 2) ["a", "b", "c"]).Dump = ["b", "c"] := by
  refine ⟨by decide, ?_⟩
  have h := ((c6_buffer_bound 2 (by decide)).2 ["a", "b", "c"]).1
  simpa using h

/-- Claim C9: the capacity-0 buffer stores nothing: every single Push and
every run of Push operations leaves it unchanged, and Dump always returns
the empty sequence (all operations are total functions in this model, so
none can fail). -/
theorem c9_zero_capacity :
    (∀ data : String, (NewGrepBuffer 0).Push data = NewGrepBuffer 0) ∧
    (∀ lines : List String, pushAll (NewGrepBuffer 0) lines = NewGrepBuffer 0) ∧
    (∀ lines : List String, (pushAll (NewGrepBuffer 0) lines).Dump = []) := by
  have hpush : ∀ data : String, (NewGrepBuffer 0).Push data = NewGrepBuffer 0 := by
    intro data
    rfl
  have hall : ∀ lines : List String, pushAll (NewGrepBuffer 0) lines = NewGrepBuffer 0 := by
    intro lines
    induction lines with
    | nil => rfl
    | cons x rest ih =>
      have hstep : pushAll (NewGrepBuffer 0) (x :: rest) =
          pushAll ((NewGrepBuffer 0).Push x) rest := rfl
      rw [hstep, hpush, ih]
  exact ⟨hpush, hall, fun lines => by rw [hall lines]; rfl⟩

/-- Inductive invariant of the limiter protocol: the free slots and the
held slots always sum to MAX_OPEN_FILE_DESCRIPTORS, and the shared counter
never goes negative. -/
theorem limiter_invariant (s : LimiterState) (h : LimiterReachable s) :
    s.openFileLimit + (s.holding : Int) = MAX_OPEN_FILE_DESCRIPTORS ∧
      0 ≤ s.openFileLimit := by
  induction h with
  | init =>
    constructor <;> simp [limiterInit, MAX_OPEN_FILE_DESCRIPTORS]
  | step hs hst ih =>
    cases hst with
    | acquire hpos =>
      obtain ⟨h1, h2⟩ := ih
      constructor <;> simp <;> omega
    | release hpos =>
      obtain ⟨h1, h2⟩ := ih
      constructor <;> simp <;> omega

/-- Claim C5: in every state of the limiter transition system reachable
from the initial GrepR state, the number of workers simultaneously holding
an admission slot (hence the number of simultaneously open files) never
exceeds MAX_OPEN_FILE_DESCRIPTORS. -/
theorem c5_limiter_bound (s : LimiterState) (h : LimiterReachable s) :
    (s.holding : Int) ≤ MAX_OPEN_FILE_DESCRIPTORS := by
  obtain ⟨h1, h2⟩ := limiter_invariant s h
  omega

/-- Concrete instance of claim C5: the initial state is reachable and its
holding count is within the bound. -/
theorem c5_limiter_bound_witness :
    LimiterReachable limiterInit ∧
      ((limiterInit.holding : Int) ≤ MAX_OPEN_FILE_DESCRIPTORS) :=
  ⟨LimiterReachable.init, c5_limiter_bound limiterInit LimiterReachable.init⟩

/-- Claim C8: a single-target Grep on an existing directory returns the
IsDirectory error carrying the original user path, produced by isValid,
and the directory is never opened (no path is passed to fSys.Open). -/
theorem c8_directory_never_opened (fSys : FSys) (option : GrepOption)
    (hpath : option.Path ≠ "")
    (hdir : FSys.lookup fSys option.Path = some FSEntry.dir) :
    (Grep fSys option).Error = some (GrepError.ErrIsDirectory option.OrigPath) ∧
      GrepOpens fSys option = [] := by
  have hv : isValid fSys option = some (GrepError.ErrIsDirectory option.OrigPath) := by
    unfold isValid
    rw [hdir]
  have hg : getReader fSys option =
      (Except.error (GrepError.ErrIsDirectory option.OrigPath), []) := by
    unfold getReader
    rw [if_pos hpath, hv]
  constructor
  · unfold Grep
    rw [hg]
  · unfold GrepOpens
    rw [hg]

/-- Concrete instance of claim C8: the single directory d of fsDir fails
with IsDirectory and is never opened. -/
theorem c8_directory_never_opened_witness :
    optDir.Path ≠ "" ∧ FSys.lookup fsDir optDir.Path = some FSEntry.dir ∧
      (Grep fsDir optDir).Error = some (GrepError.ErrIsDirectory "d") ∧
      GrepOpens fsDir optDir = [] := by
  have h := c8_directory_never_opened fsDir optDir (by decide) (by rfl)
  exact ⟨by decide, by rfl, h.1, h.2⟩

/-- The push block never changes the result slice. -/
theorem pushPhase_result (option : GrepOption) (st : SearchState) (line : String) :
    (pushPhase option st line).result = st.result := by
  unfold pushPhase
  split <;> rfl

/-- The push block never changes the after counter. -/
theorem pushPhase_after (option : GrepOption) (st : SearchState) (line : String) :
    (pushPhase option st line).afterMatchCount = st.afterMatchCount := by
  unfold pushPhase
  split <;> rfl

/-- The match block never changes the buffer. -/
theorem matchPhase_buffer (option : GrepOption) (kw line : String) (st : SearchState) :
    (matchPhase option kw line st).buffer = st.buffer := by
  unfold matchPhase
  split <;> split <;> rfl

/-- The after-context block never changes the buffer. -/
theorem afterPhase_buffer (st : SearchState) (line : String) :
    (afterPhase st line).buffer = st.buffer := by
  unfold afterPhase
  split <;> rfl

/-- Lines in the result slice after the after-context block come from the
previous result or are the current raw line. -/
theorem afterPhase_result_mem (st : SearchState) (line x : String)
    (hx : x ∈ (afterPhase st line).result) : x ∈ st.result ∨ x = line := by
  unfold afterPhase at hx
  split at hx
  · simp at hx
    rcases hx with h | h
    · exact Or.inl h
    · exact Or.inr h
  · exact Or.inl hx

/-- Lines in the result slice after the match block come from the previous
result, the buffer, or are the current raw line. -/
theorem matchPhase_result_mem (option : GrepOption) (kw line x : String) (st : SearchState)
    (hx : x ∈ (matchPhase option kw line st).result) :
    x ∈ st.result ∨ x ∈ st.buffer.buff ∨ x = line := by
  unfold matchPhase at hx
  split at hx <;> split at hx <;>
    first
    | exact Or.inl hx
    | (replace hx : x ∈ (if option.LinesBeforeMatch > 0
            then st.result ++ st.buffer.Dump else st.result) ++ [line] := hx
       rcases List.mem_append.mp hx with h | h
       · split at h
         · rcases List.mem_append.mp h with h2 | h2
           · exact Or.inl h2
           · exact Or.inr (Or.inl h2)
         · exact Or.inl h
       · simp at h
         exact Or.inr (Or.inr h))

/-- Lines stored in the buffer after a Push come from the previous buffer
contents or are the pushed line. -/
theorem Push_mem (b : grepBuffer) (data x : String)
    (hx : x ∈ (b.Push data).buff) : x ∈ b.buff ∨ x = data := by
  unfold grepBuffer.Push at hx
  split at hx
  · exact Or.inl hx
  · simp only [] at hx
    rcases List.mem_append.mp hx with h | h
    · split at h
      · exact Or.inl (List.mem_of_mem_tail h)
      · exact Or.inl h
    · simp at h
      exact Or.inr h

/-- Lines in the result slice after one full loop iteration come from the
previous result, the buffer, or are the current raw line. -/
theorem searchStep_result_mem (option : GrepOption) (kw line x : String) (st : SearchState)
    (hx : x ∈ (searchStep option kw st line).result) :
    x ∈ st.result ∨ x ∈ st.buffer.buff ∨ x = line := by
  unfold searchStep at hx
  rw [pushPhase_result] at hx
  rcases matchPhase_result_mem option kw line x (afterPhase st line) hx with h | h | h
  · rcases afterPhase_result_mem st line x h with h2 | h2
    · exact Or.inl h2
    · exact Or.inr (Or.inr h2)
  · rw [afterPhase_buffer] at h
    exact Or.inr (Or.inl h)
  · exact Or.inr (Or.inr h)

/-- Lines in the buffer after one full loop iteration come from the
previous buffer contents or are the current raw line. -/
theorem searchStep_buffer_mem (option : GrepOption) (kw line x : String) (st : SearchState)
    (hx : x ∈ (searchStep option kw st line).buffer.buff) :
    x ∈ st.buffer.buff ∨ x = line := by
  unfold searchStep pushPhase at hx
  split at hx
  · simp only [] at hx
    rcases Push_mem _ line x hx with h | h
    · rw [matchPhase_buffer, afterPhase_buffer] at h
      exact Or.inl h
    · exact Or.inr h
  · rw [matchPhase_buffer, afterPhase_buffer] at hx
    exact Or.inl hx

/-- Every line in the result of the searchString loop belongs to a list L
containing the initial result, the initial buffer contents and all
remaining input lines. -/
theorem searchLoop_mem (option : GrepOption) (kw : String) :
    ∀ (lines : List String) (st : SearchState) (L : List String),
      (∀ x ∈ st.result, x ∈ L) → (∀ x ∈ st.buffer.buff, x ∈ L) → (∀ x ∈ lines, x ∈ L) →
      ∀ x ∈ (lines.foldl (searchStep option kw) st).result, x ∈ L := by
  intro lines
  induction lines with
  | nil =>
    intro st L hr hb hl x hx
    exact hr x hx
  | cons y rest ih =>
    intro st L hr hb hl x hx
    have hy : y ∈ L := hl y (by simp)
    refine ih (searchStep option kw st y) L ?_ ?_ (fun z hz => hl z (by simp [hz])) x hx
    · intro z hz
      rcases searchStep_result_mem option kw y z st hz with h | h | h
      · exact hr z h
      · exact hb z h
      · exact h ▸ hy
    · intro z hz
      rcases searchStep_buffer_mem option kw y z st hz with h | h
      · exact hb z h
      · exact h ▸ hy

/-- Claim C7: every line searchString appends to the result - matched
line, before-context or after-context, with or without IgnoreCase - is the
original raw text of an input line; and on the input this, is, a, file, Is
with keyword is, the output is this, is with case-insensitivity off and
this, is, Is with it on. -/
theorem c7_raw_lines_and_case :
    (∀ (option : GrepOption) (lines : List String) (x : String),
        x ∈ searchString option lines → x ∈ lines) ∧
    searchString { Keyword := "is" } ["this", "is", "a", "file", "Is"] = ["this", "is"] ∧
    searchString { Keyword := "is", IgnoreCase := true } ["this", "is", "a", "file", "Is"] =
      ["this", "is", "Is"] := by
  refine ⟨?_, by decide, by decide⟩
  intro option lines x hx
  refine searchLoop_mem option (normKeyword option) lines (initState option) lines
    ?_ ?_ (fun z hz => hz) x hx
  · intro z hz
    simp [initState] at hz
  · intro z hz
    rw [initState, NewGrepBuffer_buff] at hz
    simp at hz

/-- Concrete instance of the universally quantified part of claim C7: the
matched line is of a two-line input is one of the raw input lines. -/
theorem c7_raw_lines_and_case_witness :
    "is" ∈ searchString { Keyword := "is" } ["this", "is"] ∧
      "is" ∈ (["this", "is"] : List String) :=
  ⟨by decide, c7_raw_lines_and_case.1 { Keyword := "is" } ["this", "is"] "is" (by decide)⟩

/-- If-form of the result slice after the after-context block. -/
theorem afterPhase_result (st : SearchState) (line : String) :
    (afterPhase st line).result =
      if st.afterMatchCount > 0 then st.result ++ [line] else st.result := by
  unfold afterPhase
  split <;> rfl

/-- If-form of the after counter after the after-context block. -/
theorem afterPhase_after (st : SearchState) (line : String) :
    (afterPhase st line).afterMatchCount =
      if st.afterMatchCount > 0 then st.afterMatchCount - 1 else st.afterMatchCount := by
  unfold afterPhase
  split <;> rfl

/-- If-form of the result slice after the match block. -/
theorem matchPhase_result_eq (option : GrepOption) (kw line : String) (st : SearchState) :
    (matchPhase option kw line st).result =
      if goContains (if option.IgnoreCase then toLower line else line) kw then
        (if option.LinesBeforeMatch > 0 then st.result ++ st.buffer.Dump else st.result) ++ [line]
      else st.result := by
  unfold matchPhase
  split <;> split <;> rfl

/-- If-form of the after counter after the match block. -/
theorem matchPhase_after_eq (option : GrepOption) (kw line : String) (st : SearchState) :
    (matchPhase option kw line st).afterMatchCount =
      if goContains (if option.IgnoreCase then toLower line else line) kw then
        (if option.LinesAfterMatch > 0 then st.afterMatchCount + option.LinesAfterMatch
          else st.afterMatchCount)
      else st.afterMatchCount := by
  unfold matchPhase
  split <;> split <;> rfl

/-- When before-context is not requested, the result and counter produced
by one loop iteration depend only on the previous result and counter, not
on the buffer. -/
theorem searchStep_proj (option : GrepOption) (kw line : String) (st1 st2 : SearchState)
    (h : ¬option.LinesBeforeMatch > 0)
    (hr : st1.result = st2.result) (ha : st1.afterMatchCount = st2.afterMatchCount) :
    (searchStep option kw st1 line).result = (searchStep option kw st2 line).result ∧
      (searchStep option kw st1 line).afterMatchCount =
        (searchStep option kw st2 line).afterMatchCount := by
  constructor <;>
    simp only [searchStep, pushPhase_result, pushPhase_after, matchPhase_result_eq,
      matchPhase_after_eq, afterPhase_result, afterPhase_after, if_neg h, hr, ha]

/-- Buffer-independence of the whole searchString loop when before-context
is not requested: two runs agreeing on result and counter stay in
agreement. -/
theorem searchLoop_proj (option : GrepOption) (kw : String)
    (h : ¬option.LinesBeforeMatch > 0) :
    ∀ (lines : List String) (st1 st2 : SearchState),
      st1.result = st2.result → st1.afterMatchCount = st2.afterMatchCount →
      (lines.foldl (searchStep option kw) st1).result =
        (lines.foldl (searchStep option kw) st2).result := by
  intro lines
  induction lines with
  | nil =>
    intro st1 st2 hr ha
    exact hr
  | cons y rest ih =>
    intro st1 st2 hr ha
    obtain ⟨hr2, ha2⟩ := searchStep_proj option kw y st1 st2 h hr ha
    exact ih (searchStep option kw st1 y) (searchStep option kw st2 y) hr2 ha2

/-- When before-context is not requested, one loop iteration never touches
the buffer. -/
theorem searchStep_buffer_const (option : GrepOption) (kw line : String) (st : SearchState)
    (h : ¬option.LinesBeforeMatch > 0) :
    (searchStep option kw st line).buffer = st.buffer := by
  unfold searchStep pushPhase
  rw [if_neg h, matchPhase_buffer, afterPhase_buffer]

/-- When before-context is not requested, the whole loop never touches the
buffer. -/
theorem searchLoop_buffer_const (option : GrepOption) (kw : String)
    (h : ¬option.LinesBeforeMatch > 0) :
    ∀ (lines : List String) (st : SearchState),
      (lines.foldl (searchStep option kw) st).buffer = st.buffer := by
  intro lines
  induction lines with
  | nil =>
    intro st
    rfl
  | cons y rest ih =>
    intro st
    have hstep : (y :: rest).foldl (searchStep option kw) st =
        rest.foldl (searchStep option kw) (searchStep option kw st y) := rfl
    rw [hstep, ih, searchStep_buffer_const option kw y st h]

/-- A negative before-context setting drives every loop iteration exactly
as the setting 0 does. -/
theorem searchStep_before_zero (option : GrepOption) (kw : String)
    (h : option.LinesBeforeMatch < 0) :
    ∀ (st : SearchState) (line : String),
      searchStep option kw st line =
        searchStep { option with LinesBeforeMatch := 0 } kw st line := by
  intro st line
  have h1 : ¬option.LinesBeforeMatch > 0 := by omega
  simp only [searchStep, pushPhase, matchPhase, afterPhase]
  simp [h1]

/-- A negative after-context setting drives every loop iteration exactly
as the setting 0 does. -/
theorem searchStep_after_zero (option : GrepOption) (kw : String)
    (h : option.LinesAfterMatch < 0) :
    ∀ (st : SearchState) (line : String),
      searchStep option kw st line =
        searchStep { option with LinesAfterMatch := 0 } kw st line := by
  intro st line
  have h1 : ¬option.LinesAfterMatch > 0 := by omega
  simp only [searchStep, pushPhase, matchPhase, afterPhase]
  simp [h1]

/-- Claim C10: a negative before-context or after-context count produces
exactly the result of the same options with that count replaced by 0, and
with a negative before-context count the loop performs no buffering at
all: the buffer stays the freshly allocated empty one. -/
theorem c10_negative_context (option : GrepOption) (lines : List String) :
    (option.LinesBeforeMatch < 0 →
      searchString option lines = searchString { option with LinesBeforeMatch := 0 } lines) ∧
    (option.LinesAfterMatch < 0 →
      searchString option lines = searchString { option with LinesAfterMatch := 0 } lines) ∧
    (option.LinesBeforeMatch < 0 →
      (lines.foldl (searchStep option (normKeyword option)) (initState option)).buffer =
        NewGrepBuffer option.LinesBeforeMatch) := by
  refine ⟨?_, ?_, ?_⟩
  · intro h
    have hfun : searchStep option (normKeyword option) =
        searchStep { option with LinesBeforeMatch := 0 } (normKeyword option) :=
      funext fun st => funext fun line => searchStep_before_zero option (normKeyword option) h st line
    have hnk : normKeyword { option with LinesBeforeMatch := 0 } = normKeyword option := rfl
    unfold searchString
    rw [hnk, hfun]
    exact searchLoop_proj { option with LinesBeforeMatch := 0 } (normKeyword option)
      (by simp) lines (initState option) (initState { option with LinesBeforeMatch := 0 }) rfl rfl
  · intro h
    have hfun : searchStep option (normKeyword option) =
        searchStep { option with LinesAfterMatch := 0 } (normKeyword option) :=
      funext fun st => funext fun line => searchStep_after_zero option (normKeyword option) h st line
    have hnk : normKeyword { option with LinesAfterMatch := 0 } = normKeyword option := rfl
    have hinit : initState { option with LinesAfterMatch := 0 } = initState option := rfl
    unfold searchString
    rw [hnk, hfun, hinit]
  · intro h
    have h1 : ¬option.LinesBeforeMatch > 0 := by omega
    rw [searchLoop_buffer_const option (normKeyword option) h1 lines (initState option)]
    rfl

/-- Concrete instance of claim C10: before-context -2 and after-context -3
behave exactly like 0 on the lines a, x, b. -/
theorem c10_negative_context_witness :
    optNeg.LinesBeforeMatch < 0 ∧ optNeg.LinesAfterMatch < 0 ∧
    searchString optNeg ["a", "x", "b"] =
      searchString { optNeg with LinesBeforeMatch := 0 } ["a", "x", "b"] ∧
    searchString optNeg ["a", "x", "b"] =
      searchString { optNeg with LinesAfterMatch := 0 } ["a", "x", "b"] :=
  ⟨by decide, by decide, (c10_negative_context optNeg ["a", "x", "b"]).1 (by decide),
    (c10_negative_context optNeg ["a", "x", "b"]).2.1 (by decide)⟩

end GoGrep
